import Mathlib

/-!
Shallow embedding of `src/c10/util/complex.h` (the `c10::complex` mixed-precision
complex value type).

Modelling conventions:
* The header defines `using Half = short;` — i.e. the Half precision is a 16-bit
  integer type.  Its value domain is modelled as `ℤ` (the claims under study do
  not involve overflow), and the C++ conversion from a floating value to `short`
  (truncation toward zero) is modelled by `c10.ratTrunc`.
* `float` (Single) and `double` (Double) values are modelled as exact rationals
  `ℚ`; C++ usual arithmetic conversions (promotion of mixed operands to a common
  type) are modelled by promoting both operands to `ℚ` via `c10.toRat`,
  computing exactly, and narrowing the result back to the receiver's scalar
  type via `c10.ofRat` (truncation for Half, exact for Single/Double).
* Compound assignment operators mutate `this` in C++; they are modelled as
  functions from the receiver value to the updated value.
-/

namespace c10

/-- The three scalar precisions supported by `c10::complex`:
`c10::Half` (= `short` in the header), `float`, `double`. -/
inductive Precision : Type
  | half
  | single
  | double
deriving DecidableEq, Fintype

/-- Value domain of each scalar precision.  `Half = short` carries integers;
`float` and `double` are modelled as exact rationals. -/
abbrev Scalar : Precision → Type
  | .half => ℤ
  | .single => ℚ
  | .double => ℚ

def scalarCommRing : (p : Precision) → CommRing (Scalar p)
  | .half => inferInstanceAs (CommRing ℤ)
  | .single => inferInstanceAs (CommRing ℚ)
  | .double => inferInstanceAs (CommRing ℚ)

instance (p : Precision) : CommRing (Scalar p) := scalarCommRing p

def scalarDecEq : (p : Precision) → DecidableEq (Scalar p)
  | .half => inferInstanceAs (DecidableEq ℤ)
  | .single => inferInstanceAs (DecidableEq ℚ)
  | .double => inferInstanceAs (DecidableEq ℚ)

instance (p : Precision) : DecidableEq (Scalar p) := scalarDecEq p

/-- C++ conversion of a floating value to an integer type truncates toward
zero; this is the scalar conversion `double/float → short` used whenever a
value is narrowed to the `Half = short` precision. -/
def ratTrunc (q : ℚ) : ℤ := q.num.sign * ((q.num.natAbs / q.den : ℕ) : ℤ)

/-- Promotion of a scalar value into the exact common arithmetic domain
(models C++ usual arithmetic conversions for mixed-precision expressions). -/
def toRat : {p : Precision} → Scalar p → ℚ
  | .half, x => (x : ℚ)
  | .single, x => x
  | .double, x => x

/-- Narrowing of an (exactly computed) arithmetic result back to a scalar
precision on store: truncation toward zero for `Half = short`, exact for the
rational models of `float`/`double`. -/
def ofRat : (p : Precision) → ℚ → Scalar p
  | .half, q => ratTrunc q
  | .single, q => q
  | .double, q => q

/-- `c10::complex<T>` / `complex_common<T>`: the two-element storage array
`T storage[2]`, real component first (`storage[0]`), imaginary second
(`storage[1]`). -/
@[ext]
structure complex (p : Precision) : Type where
  storage0 : Scalar p
  storage1 : Scalar p

instance (p : Precision) : DecidableEq (complex p) := fun z w =>
  decidable_of_iff (z.storage0 = w.storage0 ∧ z.storage1 = w.storage1)
    (by cases z; cases w; simp)

/-- `real()` accessor: returns `storage[0]`. -/
def complex.real {p : Precision} (z : complex p) : Scalar p := z.storage0

/-- `imag()` accessor: returns `storage[1]`. -/
def complex.imag {p : Precision} (z : complex p) : Scalar p := z.storage1

/-- `real(T value)` setter: `storage[0] = value`. -/
def complex.setReal {p : Precision} (z : complex p) (v : Scalar p) : complex p :=
  ⟨v, z.storage1⟩

/-- `imag(T value)` setter: `storage[1] = value`. -/
def complex.setImag {p : Precision} (z : complex p) (v : Scalar p) : complex p :=
  ⟨z.storage0, v⟩

/-- Models a C++ call `complex<T>(re, im)` whose arguments are floating
literals: each argument is converted to `T` at the call site (truncation
toward zero when `T` is `Half = short`), then stored. -/
def complexOfRats (p : Precision) (re im : ℚ) : complex p :=
  ⟨ofRat p re, ofRat p im⟩

/-- `operator=(T re)`: `storage[0] = re`, `storage[1]` untouched. -/
def complex.assignReal {p : Precision} (z : complex p) (re : Scalar p) : complex p :=
  ⟨re, z.storage1⟩

/-- `operator+=(T re)`: `storage[0] += re`, `storage[1]` untouched. -/
def complex.addAssignReal {p : Precision} (z : complex p) (re : Scalar p) : complex p :=
  ⟨ofRat p (toRat z.storage0 + toRat re), z.storage1⟩

/-- `operator-=(T re)`: `storage[0] -= re`, `storage[1]` untouched. -/
def complex.subAssignReal {p : Precision} (z : complex p) (re : Scalar p) : complex p :=
  ⟨ofRat p (toRat z.storage0 - toRat re), z.storage1⟩

/-- `operator*=(T re)`: both components scaled by `re`. -/
def complex.mulAssignReal {p : Precision} (z : complex p) (re : Scalar p) : complex p :=
  ⟨ofRat p (toRat z.storage0 * toRat re), ofRat p (toRat z.storage1 * toRat re)⟩

/-- `operator/=(T re)`: both components divided by `re`. -/
def complex.divAssignReal {p : Precision} (z : complex p) (re : Scalar p) : complex p :=
  ⟨ofRat p (toRat z.storage0 / toRat re), ofRat p (toRat z.storage1 / toRat re)⟩

/-- `template<U> operator=(const complex<U>&)`: componentwise scalar
conversion of the operand's components to `T`. -/
def complex.assign {p q : Precision} (_z : complex p) (rhs : complex q) : complex p :=
  ⟨ofRat p (toRat rhs.real), ofRat p (toRat rhs.imag)⟩

/-- `template<U> operator+=(const complex<U>&)`: componentwise
`storage[i] += rhs` with the mixed `T`/`U` sum computed in the promoted
arithmetic domain and narrowed to `T` on store. -/
def complex.addAssign {p q : Precision} (z : complex p) (rhs : complex q) : complex p :=
  ⟨ofRat p (toRat z.storage0 + toRat rhs.real),
   ofRat p (toRat z.storage1 + toRat rhs.imag)⟩

/-- `template<U> operator-=(const complex<U>&)`: componentwise subtraction,
as for `operator+=`. -/
def complex.subAssign {p q : Precision} (z : complex p) (rhs : complex q) : complex p :=
  ⟨ofRat p (toRat z.storage0 - toRat rhs.real),
   ofRat p (toRat z.storage1 - toRat rhs.imag)⟩

/-- `template<U> operator*=(const complex<U>&)`:
`(a + bi) * (c + di) = (a*c - b*d) + (a*d + b*c)i`, the products of a `T`
and a `U` computed in the promoted arithmetic domain, narrowed to `T` on
store (`a`, `b` are read out before either store, as in the source). -/
def complex.mulAssign {p q : Precision} (z : complex p) (rhs : complex q) : complex p :=
  let a := toRat z.storage0
  let b := toRat z.storage1
  let c := toRat rhs.real
  let d := toRat rhs.imag
  ⟨ofRat p (a * c - b * d), ofRat p (a * d + b * c)⟩

/-- `template<U> operator/=(const complex<U>&)`:
`(a + bi) / (c + di) = (ac + bd)/(c^2 + d^2) + (bc - ad)/(c^2 + d^2) i`,
computed unconditionally — the source has no special case for a zero
denominator. -/
def complex.divAssign {p q : Precision} (z : complex p) (rhs : complex q) : complex p :=
  let a := toRat z.storage0
  let b := toRat z.storage1
  let c := toRat rhs.real
  let d := toRat rhs.imag
  let denominator := c * c + d * d
  ⟨ofRat p ((a * c + b * d) / denominator), ofRat p ((b * c - a * d) / denominator)⟩

/-- The converting constructors `complex<T>::complex(const complex<U>&)`:
componentwise scalar conversion `U → T` of real and imaginary parts. -/
def convert {p : Precision} (tgt : Precision) (z : complex p) : complex tgt :=
  ⟨ofRat tgt (toRat z.real), ofRat tgt (toRat z.imag)⟩

/-- Unary `operator+`: identity. -/
def posC {p : Precision} (z : complex p) : complex p := z

/-- Unary `operator-`: `complex<T>(-val.real(), -val.imag())`. -/
def negC {p : Precision} (z : complex p) : complex p :=
  ⟨ofRat p (-(toRat z.real)), ofRat p (-(toRat z.imag))⟩

/-- `operator+(complex, complex)`: copy the left operand, then `+=`. -/
def addCC {p : Precision} (lhs rhs : complex p) : complex p := lhs.addAssign rhs

/-- `operator+(complex, T)`: copy the left operand, then `+=` the scalar. -/
def addCS {p : Precision} (lhs : complex p) (rhs : Scalar p) : complex p :=
  lhs.addAssignReal rhs

/-- `operator+(T, complex)`: copy the right operand, then `+=` the scalar. -/
def addSC {p : Precision} (lhs : Scalar p) (rhs : complex p) : complex p :=
  rhs.addAssignReal lhs

/-- `operator-(complex, complex)`: copy the left operand, then `-=`. -/
def subCC {p : Precision} (lhs rhs : complex p) : complex p := lhs.subAssign rhs

/-- `operator-(complex, T)`: copy the left operand, then `-=` the scalar. -/
def subCS {p : Precision} (lhs : complex p) (rhs : Scalar p) : complex p :=
  lhs.subAssignReal rhs

/-- `operator-(T, complex)`: `result = -rhs; result += lhs` — negate the
complex operand, then add the scalar to its real part. -/
def subSC {p : Precision} (lhs : Scalar p) (rhs : complex p) : complex p :=
  (negC rhs).addAssignReal lhs

/-- `operator*(complex, complex)`: copy the left operand, then `*=`. -/
def mulCC {p : Precision} (lhs rhs : complex p) : complex p := lhs.mulAssign rhs

/-- `operator*(complex, T)`: copy the left operand, then `*=` the scalar. -/
def mulCS {p : Precision} (lhs : complex p) (rhs : Scalar p) : complex p :=
  lhs.mulAssignReal rhs

/-- `operator*(T, complex)`: copy the right operand, then `*=` the scalar. -/
def mulSC {p : Precision} (lhs : Scalar p) (rhs : complex p) : complex p :=
  rhs.mulAssignReal lhs

/-- `operator/(complex, complex)`: copy the left operand, then `/=`. -/
def divCC {p : Precision} (lhs rhs : complex p) : complex p := lhs.divAssign rhs

/-- `operator/(complex, T)`: copy the left operand, then `/=` the scalar. -/
def divCS {p : Precision} (lhs : complex p) (rhs : Scalar p) : complex p :=
  lhs.divAssignReal rhs

/-- `operator/(T, complex)`: `complex<T> result(lhs, T()); result /= rhs` —
build the complex value `(lhs, 0)`, then divide by the complex operand. -/
def divSC {p : Precision} (lhs : Scalar p) (rhs : complex p) : complex p :=
  (complex.mk lhs 0).divAssign rhs

/-- `operator==(complex, complex)`, parameterized by the scalar `==` of `T`
(`seq` is arbitrary, so IEEE comparison behavior such as NaN irreflexivity is
covered): both components compared. -/
def eqCC {p : Precision} (seq : Scalar p → Scalar p → Bool) (lhs rhs : complex p) : Bool :=
  seq lhs.real rhs.real && seq lhs.imag rhs.imag

/-- `operator==(complex, T)`: `lhs.real() == rhs && lhs.imag() == T()`. -/
def eqCS {p : Precision} (seq : Scalar p → Scalar p → Bool) (lhs : complex p) (rhs : Scalar p) : Bool :=
  seq lhs.real rhs && seq lhs.imag 0

/-- `operator==(T, complex)`: `lhs == rhs.real() && T() == rhs.imag()`. -/
def eqSC {p : Precision} (seq : Scalar p → Scalar p → Bool) (lhs : Scalar p) (rhs : complex p) : Bool :=
  seq lhs rhs.real && seq 0 rhs.imag

/-- `operator!=(complex, complex)`: literally `!(lhs == rhs)`. -/
def neCC {p : Precision} (seq : Scalar p → Scalar p → Bool) (lhs rhs : complex p) : Bool :=
  !(eqCC seq lhs rhs)

/-- `operator!=(complex, T)`: literally `!(lhs == rhs)`. -/
def neCS {p : Precision} (seq : Scalar p → Scalar p → Bool) (lhs : complex p) (rhs : Scalar p) : Bool :=
  !(eqCS seq lhs rhs)

/-- `operator!=(T, complex)`: literally `!(lhs == rhs)`. -/
def neSC {p : Precision} (seq : Scalar p → Scalar p → Bool) (lhs : Scalar p) (rhs : complex p) : Bool :=
  !(eqSC seq lhs rhs)

/-- Rank of each precision in the widening order Half ⊂ Single ⊂ Double. -/
def rank : Precision → ℕ
  | .half => 0
  | .single => 1
  | .double => 2

/-- The converting-constructor matrix transcribed from the three
specializations: for a (destination, source) pair, `none` when no converting
constructor is declared (the diagonal), `some b` when one is declared with
`b = true` iff it is implicit (not marked `explicit`).
From the source: `complex<Half>` has `explicit` constructors from
`complex<float>` and `complex<double>`; `complex<float>` has an implicit
constructor from `complex<Half>` and an `explicit` one from `complex<double>`;
`complex<double>` has implicit constructors from both. -/
def convCtorImplicit : Precision → Precision → Option Bool
  | .half, .single => some false
  | .half, .double => some false
  | .single, .half => some true
  | .single, .double => some false
  | .double, .half => some true
  | .double, .single => some true
  | _, _ => none

/-- `sizeof(T)` for the three scalar precisions on the target platform
(`short` = 2 bytes, `float` = 4, `double` = 8). -/
def sizeofScalar : Precision → ℕ
  | .half => 2
  | .single => 4
  | .double => 8

/-- `alignof(T)` for the three scalar precisions (each scalar's natural
alignment equals its size on the target platform). -/
def alignofScalar : Precision → ℕ
  | .half => 2
  | .single => 4
  | .double => 8

/-- The `alignas(...)` value declared on each `complex<T>` specialization:
`alignas(4)` for `complex<Half>`, `alignas(8)` for `complex<float>`,
`alignas(16)` for `complex<double>`. -/
def alignasComplex : Precision → ℕ
  | .half => 4
  | .single => 8
  | .double => 16

/-- `sizeof(complex<T>)`: the raw size of the member `T storage[2]` rounded
up to the declared alignment. -/
def sizeofComplex (p : Precision) : ℕ :=
  ((2 * sizeofScalar p + alignasComplex p - 1) / alignasComplex p) * alignasComplex p

/-- Byte offset of `storage[i]` inside the object: element `i` of a `T[2]`
array sits at `i * sizeof(T)`. -/
def storageOffset (p : Precision) (i : ℕ) : ℕ := i * sizeofScalar p

/-! ### Basic facts about the scalar conversion layer -/

theorem ratTrunc_intCast (n : ℤ) : ratTrunc (n : ℚ) = n := by
  unfold ratTrunc
  rw [Rat.num_intCast, Rat.den_intCast, Nat.div_one]
  exact Int.sign_mul_natAbs n

theorem ratTrunc_neg (q : ℚ) : ratTrunc (-q) = -ratTrunc q := by
  unfold ratTrunc
  rw [Rat.neg_num, Rat.neg_den, Int.sign_neg, Int.natAbs_neg]
  ring

theorem ratTrunc_floor_of_nonneg {q : ℚ} (h : 0 ≤ q) : ratTrunc q = ⌊q⌋ := by
  have hnum : 0 ≤ q.num := Rat.num_nonneg.mpr h
  rw [Rat.floor_def]
  rcases hnum.eq_or_lt with h0 | hpos
  · rw [ratTrunc, ← h0]
    simp
  · rw [ratTrunc, Int.sign_eq_one_of_pos hpos, one_mul, Int.ofNat_tdiv,
      Int.natAbs_of_nonneg hnum]
    exact Int.tdiv_eq_ediv hnum (Int.ofNat_nonneg q.den)

theorem ratTrunc_ceil_of_nonpos {q : ℚ} (h : q ≤ 0) : ratTrunc q = ⌈q⌉ := by
  have h2 := ratTrunc_floor_of_nonneg (neg_nonneg.mpr h)
  rw [ratTrunc_neg] at h2
  have h3 : ratTrunc q = -⌊-q⌋ := by omega
  rw [h3, ← Int.ceil_neg, neg_neg]

theorem ofRat_toRat (p : Precision) (x : Scalar p) : ofRat p (toRat x) = x := by
  cases p
  · exact ratTrunc_intCast x
  · rfl
  · rfl

theorem ofRat_toRat_add (p : Precision) (x y : Scalar p) :
    ofRat p (toRat x + toRat y) = x + y := by
  cases p
  · show ratTrunc ((x : ℚ) + (y : ℚ)) = x + y
    rw [← Int.cast_add, ratTrunc_intCast]
  · rfl
  · rfl

theorem ofRat_toRat_sub (p : Precision) (x y : Scalar p) :
    ofRat p (toRat x - toRat y) = x - y := by
  cases p
  · show ratTrunc ((x : ℚ) - (y : ℚ)) = x - y
    rw [← Int.cast_sub, ratTrunc_intCast]
  · rfl
  · rfl

theorem ofRat_toRat_neg (p : Precision) (x : Scalar p) :
    ofRat p (-(toRat x)) = -x := by
  cases p
  · show ratTrunc (-(x : ℚ)) = -x
    rw [← Int.cast_neg, ratTrunc_intCast]
  · rfl
  · rfl

theorem negC_components (p : Precision) (z : complex p) :
    negC z = ⟨-z.storage0, -z.storage1⟩ := by
  unfold negC
  rw [ofRat_toRat_neg, ofRat_toRat_neg]
  rfl

theorem ratTrunc_eval {q : ℚ} {n : ℤ} (h0 : 0 ≤ q) (h : ⌊q⌋ = n) : ratTrunc q = n := by
  rw [ratTrunc_floor_of_nonneg h0, h]

theorem subSC_components (p : Precision) (s : Scalar p) (z : complex p) :
    subSC s z = ⟨s - z.storage0, -z.storage1⟩ := by
  show (negC z).addAssignReal s = _
  rw [negC_components]
  show complex.mk (ofRat p (toRat (-z.storage0) + toRat s)) (-z.storage1) = _
  rw [ofRat_toRat_add, neg_add_eq_sub]

/-! ### Claim theorems -/

/-- C1: the spec scenario "compound-add `ComplexValue<Half>(0.5, 0.5)` to
`ComplexValue<Single>(1.5, 2.5)`, expect `(2.0, 3.0)`" fails on the code:
since the header defines `Half = short`, both components of
`complex<Half>(0.5, 0.5)` truncate to `0`, so the compound add leaves the
receiver at `(1.5, 2.5)`, not the `(2.0, 3.0)` the spec (whose Half is a
genuine floating-point half precision) expects. -/
theorem C1_half_scenario_divergence :
    complexOfRats Precision.half 0.5 0.5 = ⟨0, 0⟩ ∧
    (complexOfRats Precision.single 1.5 2.5).addAssign (complexOfRats Precision.half 0.5 0.5)
      = complexOfRats Precision.single 1.5 2.5 ∧
    (complexOfRats Precision.single 1.5 2.5).addAssign (complexOfRats Precision.half 0.5 0.5)
      ≠ complexOfRats Precision.single 2 3 := by
  have h05 : ratTrunc (0.5 : ℚ) = 0 := ratTrunc_eval (by norm_num) (by norm_num)
  refine ⟨?_, ?_, ?_⟩
  · refine complex.ext ?_ ?_ <;> exact h05
  · refine complex.ext ?_ ?_ <;>
      simp [complexOfRats, ofRat, toRat, complex.addAssign, complex.real, complex.imag, h05]
  · intro hEq
    have h0 := congrArg complex.storage0 hEq
    simp [complexOfRats, ofRat, toRat, complex.addAssign, complex.real, h05] at h0
    norm_num at h0

/-- C2: compound division stores
`((a*c + b*d)/(c^2+d^2), (b*c - a*d)/(c^2+d^2))` for every receiver and
operand precision, with no hypothesis excluding a zero denominator (the
source has no guard); and `complex<double>(1,2) / complex<double>(3,4)`
equals `(0.44, 0.08)` exactly in the rational model. -/
theorem C2_division_formula (p q : Precision) (z : complex p) (w : complex q) :
    z.divAssign w =
      ⟨ofRat p ((toRat z.real * toRat w.real + toRat z.imag * toRat w.imag) /
          (toRat w.real * toRat w.real + toRat w.imag * toRat w.imag)),
        ofRat p ((toRat z.imag * toRat w.real - toRat z.real * toRat w.imag) /
          (toRat w.real * toRat w.real + toRat w.imag * toRat w.imag))⟩ ∧
    divCC (complexOfRats Precision.double 1 2) (complexOfRats Precision.double 3 4)
      = complexOfRats Precision.double 0.44 0.08 := by
  refine ⟨rfl, ?_⟩
  refine complex.ext ?_ ?_ <;>
    simp [divCC, complex.divAssign, complexOfRats, ofRat, toRat,
      complex.real, complex.imag] <;>
    norm_num

/-- C4: compound multiplication stores `(a*c - b*d)` and `(a*d + b*c)`, the
mixed-precision products computed in the promoted arithmetic domain and
narrowed to the receiver precision on store; evaluated at a Half receiver
with a Double operand (the store truncates) and at two Double operands. -/
theorem C4_multiplication_formula (p q : Precision) (z : complex p) (w : complex q) :
    z.mulAssign w =
      ⟨ofRat p (toRat z.real * toRat w.real - toRat z.imag * toRat w.imag),
        ofRat p (toRat z.real * toRat w.imag + toRat z.imag * toRat w.real)⟩ ∧
    complex.mulAssign (⟨2, 3⟩ : complex Precision.half)
      (complexOfRats Precision.double (3/2) (1/2)) = ⟨1, 5⟩ ∧
    (complexOfRats Precision.double 1 2).mulAssign (complexOfRats Precision.double 3 4)
      = complexOfRats Precision.double (-5) 10 := by
  refine ⟨rfl, ?_, ?_⟩
  · refine complex.ext ?_ ?_ <;>
      simp [complex.mulAssign, complexOfRats, ofRat, toRat, complex.real, complex.imag] <;>
      exact ratTrunc_eval (by norm_num) (by norm_num)
  · refine complex.ext ?_ ?_ <;>
      simp [complex.mulAssign, complexOfRats, ofRat, toRat, complex.real, complex.imag] <;>
      norm_num

/-- C5: `scalar - complex` negates the operand and adds the scalar to the
real part, giving `(s - re z, -im z)`; `scalar / complex` builds `(s, 0)`
and divides by the operand with the compound-division rule; and
`5 - complex<float>(2,3) = (3, -3)`. -/
theorem C5_scalar_left_sub_div (p : Precision) (s : Scalar p) (z : complex p) :
    subSC s z = ⟨s - z.real, -z.imag⟩ ∧
    divSC s z = (complex.mk s 0).divAssign z ∧
    subSC (5 : Scalar Precision.single) (⟨2, 3⟩ : complex Precision.single) = ⟨3, -3⟩ := by
  refine ⟨subSC_components p s z, rfl, ?_⟩
  rw [subSC_components]
  refine complex.ext ?_ ?_ <;> norm_num

/-- C6: inequality is the literal negation of equality in all three operand
shapes for an arbitrary scalar `==` (hence also for IEEE-style comparison
with NaN irreflexivity); complex == scalar compares the real part to the
scalar and the imaginary part to zero; and the two concrete equality
scenarios hold. -/
theorem C6_equality_semantics (p : Precision) (seq : Scalar p → Scalar p → Bool)
    (l r : complex p) (s : Scalar p) :
    neCC seq l r = !(eqCC seq l r) ∧
    neCS seq l s = !(eqCS seq l s) ∧
    neSC seq s r = !(eqSC seq s r) ∧
    eqCC seq l r = (seq l.real r.real && seq l.imag r.imag) ∧
    eqCS seq l s = (seq l.real s && seq l.imag 0) ∧
    eqSC seq s r = (seq s r.real && seq 0 r.imag) ∧
    eqCS (fun a b : ℚ => a == b) (⟨5, 0⟩ : complex Precision.double) 5 = true ∧
    eqCS (fun a b : ℚ => a == b) (⟨5, 1⟩ : complex Precision.double) 5 = false :=
  ⟨rfl, rfl, rfl, rfl, rfl, rfl, by decide, by decide⟩

/-- C7: assigning a scalar to a complex value writes only the real slot
(the imaginary slot keeps its old value — no reset to zero), and compound
add/subtract of a scalar also leave the imaginary slot untouched. -/
theorem C7_scalar_ops_touch_only_real (p : Precision) (z : complex p) (v : Scalar p) :
    (z.assignReal v).storage0 = v ∧
    (z.assignReal v).storage1 = z.storage1 ∧
    (z.addAssignReal v).storage1 = z.storage1 ∧
    (z.subAssignReal v).storage1 = z.storage1 ∧
    (z.addAssignReal v).storage0 = z.storage0 + v ∧
    (z.subAssignReal v).storage0 = z.storage0 - v :=
  ⟨rfl, rfl, rfl, rfl, ofRat_toRat_add p z.storage0 v, ofRat_toRat_sub p z.storage0 v⟩

/-- C8: converting a value to any strictly wider precision and back
reproduces it exactly (`Half→Single→Half`, `Half→Double→Half`,
`Single→Double→Single`). -/
theorem C8_widening_roundtrip (p w : Precision) (h : rank p < rank w) (z : complex p) :
    convert p (convert w z) = z := by
  cases p <;> cases w <;>
    first
    | exact absurd h (by decide)
    | (refine complex.ext ?_ ?_ <;>
        simp [convert, complex.real, complex.imag, ofRat, toRat, ratTrunc_intCast])

/-- Witness for C8 at `Half→Single→Half` on `(3, -4)`. -/
theorem C8_widening_roundtrip_witness :
    rank Precision.half < rank Precision.single ∧
    convert Precision.half (convert Precision.single (⟨3, -4⟩ : complex Precision.half))
      = ⟨3, -4⟩ :=
  ⟨by decide, C8_widening_roundtrip Precision.half Precision.single (by decide) ⟨3, -4⟩⟩

/-- C3: the converting-constructor matrix: for distinct precisions a
converting constructor always exists, it is implicit exactly when the
destination is wider, and explicit (so that implicit narrowing is rejected
at build time) exactly when the destination is narrower. -/
theorem C3_ctor_visibility_matrix :
    ∀ d s : Precision, d ≠ s →
      (convCtorImplicit d s).isSome = true ∧
      (convCtorImplicit d s = some true ↔ rank s < rank d) ∧
      (convCtorImplicit d s = some false ↔ rank d < rank s) := by
  decide

/-- Witness for C3 at destination Double, source Single (implicit widening
cell). -/
theorem C3_ctor_visibility_matrix_witness :
    Precision.double ≠ Precision.single ∧
    ((convCtorImplicit Precision.double Precision.single).isSome = true ∧
      (convCtorImplicit Precision.double Precision.single = some true ↔
        rank Precision.single < rank Precision.double) ∧
      (convCtorImplicit Precision.double Precision.single = some false ↔
        rank Precision.double < rank Precision.single)) :=
  ⟨by decide, C3_ctor_visibility_matrix Precision.double Precision.single (by decide)⟩

/-- C9: for each precision, `sizeof(complex<T>)` is twice the scalar size,
the declared `alignas` is twice the scalar alignment, and the components sit
at offsets 0 (`real`, i.e. `storage[0]`) and `sizeof(T)` (`imag`, i.e.
`storage[1]`) with no padding. -/
theorem C9_layout_invariant :
    (∀ p : Precision,
      sizeofComplex p = 2 * sizeofScalar p ∧
      alignasComplex p = 2 * alignofScalar p ∧
      storageOffset p 0 = 0 ∧
      storageOffset p 1 = sizeofScalar p) ∧
    (∀ (p : Precision) (z : complex p), z.real = z.storage0 ∧ z.imag = z.storage1) :=
  ⟨by decide, fun _ _ => ⟨rfl, rfl⟩⟩

/-- C10: the Half precision is the integer type `short` (2 bytes); scalar
narrowing to Half truncates toward zero (floor on nonnegative values, ceil
on nonpositive ones), both direct construction from fractional arguments and
the explicit converting constructors from Single/Double truncate
componentwise, and both components of `complex<Half>(0.5, 0.5)` are `0`. -/
theorem C10_half_is_short :
    (∀ q : ℚ, 0 ≤ q → ofRat Precision.half q = ⌊q⌋) ∧
    (∀ q : ℚ, q ≤ 0 → ofRat Precision.half q = ⌈q⌉) ∧
    (∀ re im : ℚ, complexOfRats Precision.half re im = ⟨ratTrunc re, ratTrunc im⟩) ∧
    (∀ z : complex Precision.single,
      convert Precision.half z = ⟨ratTrunc z.storage0, ratTrunc z.storage1⟩) ∧
    (∀ z : complex Precision.double,
      convert Precision.half z = ⟨ratTrunc z.storage0, ratTrunc z.storage1⟩) ∧
    complexOfRats Precision.half 0.5 0.5 = ⟨0, 0⟩ ∧
    sizeofScalar Precision.half = 2 := by
  have h05 : ratTrunc (0.5 : ℚ) = 0 := ratTrunc_eval (by norm_num) (by norm_num)
  exact ⟨fun _ h => ratTrunc_floor_of_nonneg h, fun _ h => ratTrunc_ceil_of_nonpos h,
    fun _ _ => rfl, fun _ => rfl, fun _ => rfl,
    complex.ext h05 h05, rfl⟩

/-- Witness for C10's truncation clauses at `q = 3` and `q = -3`. -/
theorem C10_half_is_short_witness :
    (0 ≤ (3 : ℚ) ∧ ofRat Precision.half 3 = ⌊(3 : ℚ)⌋) ∧
    ((-3 : ℚ) ≤ 0 ∧ ofRat Precision.half (-3) = ⌈(-3 : ℚ)⌉) :=
  ⟨⟨by decide, C10_half_is_short.1 3 (by decide)⟩,
    ⟨by decide, C10_half_is_short.2.1 (-3) (by decide)⟩⟩

end c10

